import Mathlib

set_option maxHeartbeats 4000000
set_option maxRecDepth 4000

/-
Verification of the chess board-state engine in chess_game.py.
The engine part of the source (class Board) is translated here as a
shallow embedding: the mutable 8x8 grid becomes a function from squares
to optional pieces, and the mutating methods become pure functions on a
Board structure.  Pixel and rendering code (class ChessGame) is outside
the engine and is not modelled.
-/

/-- Side of a piece; the source uses the one-character strings w and b. -/
inductive Color
| w
| b
deriving DecidableEq

/-- Piece kind; the source uses the strings K, Q, R, B, N, P. -/
inductive PieceType
| K
| Q
| R
| B
| N
| P
deriving DecidableEq, Repr

/-- A piece pairs a color with a kind, as in class Piece of the source. -/
structure Piece where
  color : Color
  kind : PieceType
deriving DecidableEq

/-- A board square (row, col); the source indexes grid[r][c] with ints.
Int coordinates keep candidate squares such as r - 1 faithful before the
in_bounds test, exactly as in the source. -/
abbrev Square := Int × Int

/-- A move is (from, to, promotion), as the source tuple. -/
abbrev Move := Square × Square × Option PieceType

/-- The grid of Board: contents of every square. -/
abbrev Grid := Square → Option Piece

/-- The opposite color; the source writes it inline as
b if color == w else w. -/
def opposite : Color → Color
| .w => .b
| .b => .w

/-- The Board state: the fields of Board.__init__ in the source. -/
structure Board where
  grid : Grid
  turn : Color
  halfmove_clock : Nat
  fullmove_number : Nat
  game_over : Option String
  winner : Option Color

/-- Board.in_bounds of the source: 0 <= r < 8 and 0 <= c < 8. -/
def in_bounds (r c : Int) : Bool :=
  decide (0 ≤ r) && decide (r < 8) && decide (0 ≤ c) && decide (c < 8)

/-- The squares scanned by the nested loops for r in range(8): for c in
range(8), in that (row-major) order. -/
def squaresList : List Square :=
  (List.range 8).flatMap (fun r => (List.range 8).map (fun c => ((r : Int), (c : Int))))

/-- Writing one grid cell: the model of an assignment grid[sq] = v. -/
def gupdate (g : Grid) (sq : Square) (v : Option Piece) : Grid :=
  fun x => if x = sq then v else g x

/-- Board.empty of the source: the square holds no piece. -/
def gEmpty (g : Grid) (r c : Int) : Bool :=
  (g (r, c)).isNone

/-- Board.occupied_by of the source: the square holds a piece of the
given color. -/
def occupied_by (g : Grid) (r c : Int) (color : Color) : Bool :=
  match g (r, c) with
  | some p => decide (p.color = color)
  | none => false

/-- The test p and p.color == color and p.kind == K applied by
Board.king_position to one cell value. -/
def is_king_piece (o : Option Piece) (color : Color) : Bool :=
  match o with
  | some p => decide (p.color = color ∧ p.kind = .K)
  | none => false

/-- The king test of Board.king_position at one square. -/
def is_king_square (g : Grid) (color : Color) (sq : Square) : Bool :=
  is_king_piece (g sq) color

/-- Board.king_position of the source: first square (row-major) holding
the king of the color, none if there is no such square. -/
def king_position (g : Grid) (color : Color) : Option Square :=
  squaresList.find? (is_king_square g color)

/-- The pawn direction of the source: -1 for White, 1 for Black. -/
def pawn_dir (color : Color) : Int :=
  if color = .w then -1 else 1

/-- The pawn start row of the source: 6 for White, 1 for Black. -/
def pawn_start_row (color : Color) : Int :=
  if color = .w then 6 else 1

/-- One iteration of the capture loop of the pawn branch (dc is -1 or
1): capture diagonally onto an enemy piece, with promotion on the last
rank. -/
def pawn_capture_at (g : Grid) (r c : Int) (color : Color) (dc : Int) : List Move :=
  let nr := r + pawn_dir color
  let nc := c + dc
  if in_bounds nr nc && !gEmpty g nr nc && !occupied_by g nr nc color then
    if decide (nr = 0) || decide (nr = 7) then [((r, c), (nr, nc), some PieceType.Q)]
    else [((r, c), (nr, nc), (none : Option PieceType))]
  else []

/-- The pawn branch of Board.generate_pseudo_moves_from: forward one
(with promotion on the last rank), forward two from the start row, and
the two diagonal captures, in source order.  En passant is not
implemented in the source. -/
def pawn_moves (g : Grid) (r c : Int) (color : Color) : List Move :=
  let dir := pawn_dir color
  let nr := r + dir
  let forward :=
    if in_bounds nr c && gEmpty g nr c then
      (if decide (nr = 0) || decide (nr = 7) then [((r, c), (nr, c), some PieceType.Q)]
       else [((r, c), (nr, c), (none : Option PieceType))]) ++
      (if decide (r = pawn_start_row color) && gEmpty g (r + 2 * dir) c then
         [((r, c), (r + 2 * dir, c), (none : Option PieceType))]
       else [])
    else []
  forward ++ [(-1 : Int), 1].flatMap (pawn_capture_at g r c color)

/-- The eight knight offsets, in source order. -/
def knight_offsets : List (Int × Int) :=
  [(-2, -1), (-2, 1), (-1, -2), (-1, 2), (1, -2), (1, 2), (2, -1), (2, 1)]

/-- The eight king offsets: the source loops dr, dc over -1, 0, 1 and
skips (0, 0); this is the resulting order. -/
def king_offsets : List (Int × Int) :=
  [(-1, -1), (-1, 0), (-1, 1), (0, -1), (0, 1), (1, -1), (1, 0), (1, 1)]

/-- One iteration of the knight and king loops: skip a target off the
board or occupied by a friendly piece, otherwise emit the move. -/
def step_move_at (g : Grid) (color : Color) (r c : Int) (d : Int × Int) : List Move :=
  let nr := r + d.1
  let nc := c + d.2
  if !in_bounds nr nc then []
  else if occupied_by g nr nc color then []
  else [((r, c), (nr, nc), (none : Option PieceType))]

/-- One-step moves of the knight and king branches. -/
def step_moves (g : Grid) (color : Color) (r c : Int) (offsets : List (Int × Int)) : List Move :=
  offsets.flatMap (step_move_at g color r c)

/-- The while loop of the sliding branch: walk from (nr, nc) in
direction (dr, dc); stop before a friendly piece, include an enemy
piece and stop, keep going over empty squares until the edge.  The fuel
bounds the walk; 8 steps always reach the edge of the 8x8 board, so the
fuel never cuts a ray short. -/
def ray_moves (g : Grid) (color : Color) (src : Square) (dr dc : Int) :
    Int → Int → Nat → List Move
| _, _, 0 => []
| nr, nc, fuel + 1 =>
  if !in_bounds nr nc then []
  else if occupied_by g nr nc color then []
  else if (g (nr, nc)).isSome then [(src, (nr, nc), (none : Option PieceType))]
  else (src, (nr, nc), (none : Option PieceType)) ::
    ray_moves g color src dr dc (nr + dr) (nc + dc) fuel

/-- The direction list of the sliding branch: diagonals for B and Q,
then orthogonals for R and Q, as the two += of the source. -/
def slide_directions (kind : PieceType) : List (Int × Int) :=
  (if kind = .B ∨ kind = .Q then [(-1, -1), (-1, 1), (1, -1), (1, 1)] else []) ++
  (if kind = .R ∨ kind = .Q then [(-1, 0), (1, 0), (0, -1), (0, 1)] else [])

/-- Board.generate_pseudo_moves_from of the source. -/
def generate_pseudo_moves_from (g : Grid) (sq : Square) (p : Piece) : List Move :=
  match p.kind with
  | .P => pawn_moves g sq.1 sq.2 p.color
  | .N => step_moves g p.color sq.1 sq.2 knight_offsets
  | .K => step_moves g p.color sq.1 sq.2 king_offsets
  | _ => (slide_directions p.kind).flatMap (fun d =>
      ray_moves g p.color sq d.1 d.2 (sq.1 + d.1) (sq.2 + d.2) 8)

/-- The body of the scan of Board.is_square_attacked_by at one square:
the square holds a piece of the attacker color one of whose pseudo moves
targets sq. -/
def attacks_from (g : Grid) (sq : Square) (attacker_color : Color) (rc : Square) : Bool :=
  match g rc with
  | some p =>
    decide (p.color = attacker_color) &&
      (generate_pseudo_moves_from g rc p).any (fun mv => decide (mv.2.1 = sq))
  | none => false

/-- Board.is_square_attacked_by of the source. -/
def is_square_attacked_by (g : Grid) (sq : Square) (attacker_color : Color) : Bool :=
  squaresList.any (attacks_from g sq attacker_color)

/-- Board.in_check of the source: false when king_position is None,
otherwise the king square is attacked by the opponent. -/
def in_check_grid (g : Grid) (color : Color) : Bool :=
  match king_position g color with
  | none => false
  | some kpos => is_square_attacked_by g kpos (opposite color)

/-- The piece written to the target square by the apply step shared by
Board.is_legal_move and Board.make_move: the moved piece itself, or a
freshly built piece of the promotion kind.  (The source would fail here
if the from-square were empty while a promotion is present; no caller
does that, and the model maps the missing piece to an empty target.) -/
def applied_target (g : Grid) (mv : Move) : Option Piece :=
  match mv.2.2 with
  | none => g mv.1
  | some k => (g mv.1).map (fun p => Piece.mk p.color k)

/-- The grid after the apply step: write the target square, clear the
from-square (in source order, so the from-square write wins if the two
squares coincide). -/
def applied_grid (g : Grid) (mv : Move) : Grid :=
  gupdate (gupdate g mv.2.1 (applied_target g mv)) mv.1 none

/-- The boolean Board.is_legal_move returns: the mover is not in check
after the speculative apply. -/
def is_legal_move (g : Grid) (mv : Move) (color : Color) : Bool :=
  !(in_check_grid (applied_grid g mv) color)

/-- Board.is_legal_move with the mutation made explicit: save piece and
captured, apply, test check, undo, and return the boolean together with
the board the caller is left with. -/
def is_legal_move_state (bd : Board) (mv : Move) (color : Color) : Bool × Board :=
  let piece := bd.grid mv.1
  let captured := bd.grid mv.2.1
  let applied := applied_grid bd.grid mv
  let king_in_check := in_check_grid applied color
  let restored := gupdate (gupdate applied mv.1 piece) mv.2.1 captured
  (!king_in_check, { bd with grid := restored })

/-- The per-square body of the scan of Board.generate_legal_moves: the
pseudo moves of a piece of the color at the square, kept when legal. -/
def legal_from (g : Grid) (color : Color) (rc : Square) : List Move :=
  match g rc with
  | some p =>
    if p.color = color then
      (generate_pseudo_moves_from g rc p).filter (fun mv => is_legal_move g mv color)
    else []
  | none => []

/-- Board.generate_legal_moves of the source (row-major scan). -/
def generate_legal_moves (g : Grid) (color : Color) : List Move :=
  squaresList.flatMap (legal_from g color)

/-- Board.update_game_state of the source: no-op once game_over is set;
otherwise checkmate or stalemate when the side to move has no legal
moves. -/
def update_game_state (bd : Board) : Board :=
  if bd.game_over.isSome then bd
  else if (generate_legal_moves bd.grid bd.turn).length = 0 then
    if in_check_grid bd.grid bd.turn then
      { bd with game_over := some "checkmate", winner := some (opposite bd.turn) }
    else
      { bd with game_over := some "stalemate", winner := none }
  else bd

/-- Board.make_move of the source: apply the move to the grid, flip the
turn, bump fullmove_number when play passes back to White, then run
update_game_state. -/
def make_move (bd : Board) (mv : Move) : Board :=
  update_game_state
    { bd with
      grid := applied_grid bd.grid mv
      turn := opposite bd.turn
      fullmove_number :=
        if opposite bd.turn = .w then bd.fullmove_number + 1 else bd.fullmove_number }

/-- Board.in_check as a Board method. -/
def Board.in_check (bd : Board) (color : Color) : Bool :=
  in_check_grid bd.grid color

/-- The back-rank order list of Board.place_start_position. -/
def back_rank_order : List PieceType := [.R, .N, .B, .Q, .K, .B, .N, .R]

/-- The grid built by Board.place_start_position: Black back rank on
row 0 and pawns on row 1, White pawns on row 6 and back rank on row 7. -/
def start_grid : Grid := fun sq =>
  if 0 ≤ sq.2 ∧ sq.2 < 8 then
    if sq.1 = 0 then (back_rank_order[sq.2.toNat]?).map (Piece.mk .b)
    else if sq.1 = 1 then some ⟨.b, .P⟩
    else if sq.1 = 6 then some ⟨.w, .P⟩
    else if sq.1 = 7 then (back_rank_order[sq.2.toNat]?).map (Piece.mk .w)
    else none
  else none

/-- Board(): the state Board.__init__ builds. -/
def initialBoard : Board where
  grid := start_grid
  turn := .w
  halfmove_clock := 0
  fullmove_number := 1
  game_over := none
  winner := none

/-- Number of kings of a color on the grid (over the 64 squares the
source ever scans). -/
def countKings (g : Grid) (color : Color) : Nat :=
  squaresList.countP (is_king_square g color)

/-- The boards the engine can actually reach: the start position,
closed under applying a generated legal move of the side to move while
the game is not over (the call discipline of the source UI and AI). -/
inductive Reachable : Board → Prop
| init : Reachable initialBoard
| step (bd : Board) (m : Move) : Reachable bd → bd.game_over = none →
    m ∈ generate_legal_moves bd.grid bd.turn → Reachable (make_move bd m)

/-- The engine invariant: one king of each color on the grid, and the
player who just moved (the opponent of the side to move) is not in
check. -/
def EngineInv (bd : Board) : Prop :=
  (∀ col, countKings bd.grid col = 1) ∧
    in_check_grid bd.grid (opposite bd.turn) = false

/-- Test fixture: only the two kings, far apart. -/
def two_kings_grid : Grid := fun sq =>
  if sq = ((0 : Int), (0 : Int)) then some ⟨.b, .K⟩
  else if sq = ((7 : Int), (0 : Int)) then some ⟨.w, .K⟩
  else none

/-- Test fixture board around two_kings_grid, White to move. -/
def two_kings_board : Board where
  grid := two_kings_grid
  turn := .w
  halfmove_clock := 0
  fullmove_number := 1
  game_over := none
  winner := none

/-- Test fixture: a White pawn on e7 (row 1, column 4) with e8 empty,
plus the two kings. -/
def promo_grid : Grid := fun sq =>
  if sq = ((1 : Int), (4 : Int)) then some ⟨.w, .P⟩
  else if sq = ((7 : Int), (7 : Int)) then some ⟨.w, .K⟩
  else if sq = ((0 : Int), (0 : Int)) then some ⟨.b, .K⟩
  else none

/-- Test fixture board around promo_grid, White to move. -/
def promo_board : Board where
  grid := promo_grid
  turn := .w
  halfmove_clock := 0
  fullmove_number := 1
  game_over := none
  winner := none

/-- Test fixture: a board with no pieces at all. -/
def empty_board : Board where
  grid := fun _ => none
  turn := .w
  halfmove_clock := 0
  fullmove_number := 1
  game_over := none
  winner := none

/- ------------------------------------------------------------------
Basic lemmas about the embedding.
------------------------------------------------------------------ -/

lemma opposite_opposite (c : Color) : opposite (opposite c) = c := by
  cases c <;> rfl

lemma opposite_eq_w_iff (c : Color) : (opposite c = .w) ↔ c = .b := by
  cases c <;> simp [opposite]

lemma gupdate_same (g : Grid) (a : Square) (v : Option Piece) : gupdate g a v a = v := by
  simp [gupdate]

lemma gupdate_ne (g : Grid) (a x : Square) (v : Option Piece) (h : x ≠ a) :
    gupdate g a v x = g x := by
  simp [gupdate, h]

lemma mem_squaresList_iff (r c : Int) : ((r, c) ∈ squaresList) ↔ in_bounds r c = true := by
  constructor
  · intro h
    have hall : ∀ sq ∈ squaresList, in_bounds sq.1 sq.2 = true := by decide
    exact hall (r, c) h
  · intro h
    unfold in_bounds at h
    simp only [Bool.and_eq_true, decide_eq_true_eq] at h
    obtain ⟨⟨⟨h1, h2⟩, h3⟩, h4⟩ := h
    simp only [squaresList, List.mem_flatMap, List.mem_map, List.mem_range]
    refine ⟨r.toNat, by omega, c, ?_, ?_⟩
    · show c ∈ (List.range 8).flatMap (fun a => pure ((a : Int)))
      refine List.mem_flatMap.mpr ⟨c.toNat, List.mem_range.mpr (by omega), ?_⟩
      show c ∈ [((c.toNat : Int))]
      simp [Int.toNat_of_nonneg h3]
    · rw [Int.toNat_of_nonneg h1]

lemma squaresList_nodup : squaresList.Nodup := by decide

lemma is_legal_move_iff (g : Grid) (mv : Move) (color : Color) :
    is_legal_move g mv color = true ↔ in_check_grid (applied_grid g mv) color = false := by
  unfold is_legal_move
  cases in_check_grid (applied_grid g mv) color <;> simp

lemma update_game_state_grid (bd : Board) : (update_game_state bd).grid = bd.grid := by
  unfold update_game_state
  repeat' split
  all_goals rfl

lemma update_game_state_turn (bd : Board) : (update_game_state bd).turn = bd.turn := by
  unfold update_game_state
  repeat' split
  all_goals rfl

lemma update_game_state_fullmove (bd : Board) :
    (update_game_state bd).fullmove_number = bd.fullmove_number := by
  unfold update_game_state
  repeat' split
  all_goals rfl

lemma make_move_grid (bd : Board) (m : Move) :
    (make_move bd m).grid = applied_grid bd.grid m := by
  unfold make_move
  rw [update_game_state_grid]

lemma make_move_turn (bd : Board) (m : Move) :
    (make_move bd m).turn = opposite bd.turn := by
  unfold make_move
  rw [update_game_state_turn]

lemma make_move_fullmove (bd : Board) (m : Move) :
    (make_move bd m).fullmove_number =
      if opposite bd.turn = .w then bd.fullmove_number + 1 else bd.fullmove_number := by
  unfold make_move
  rw [update_game_state_fullmove]

/- ------------------------------------------------------------------
Shape of the generated pseudo moves.
------------------------------------------------------------------ -/

lemma occupied_by_of_empty (g : Grid) (r c : Int) (color : Color)
    (h : gEmpty g r c = true) : occupied_by g r c color = false := by
  unfold gEmpty at h
  unfold occupied_by
  rcases hg : g (r, c) with _ | p
  · rfl
  · rw [hg] at h
    simp at h

lemma mem_step_moves {g : Grid} {color : Color} {r c : Int}
    {offsets : List (Int × Int)} {m : Move} (h : m ∈ step_moves g color r c offsets) :
    ∃ d ∈ offsets, m = ((r, c), (r + d.1, c + d.2), none) ∧
      in_bounds (r + d.1) (c + d.2) = true ∧
      occupied_by g (r + d.1) (c + d.2) color = false := by
  unfold step_moves at h
  obtain ⟨d, hd, hm⟩ := List.mem_flatMap.mp h
  refine ⟨d, hd, ?_⟩
  unfold step_move_at at hm
  dsimp only at hm
  split at hm
  case isTrue => exact absurd hm (List.not_mem_nil m)
  case isFalse hb =>
    split at hm
    case isTrue => exact absurd hm (List.not_mem_nil m)
    case isFalse ho =>
      obtain rfl := List.mem_singleton.mp hm
      exact ⟨rfl, by simpa using hb, by simpa using ho⟩

lemma mem_ray_moves {g : Grid} {color : Color} {src : Square} {dr dc : Int} :
    ∀ (fuel : Nat) (nr nc : Int) (m : Move), m ∈ ray_moves g color src dr dc nr nc fuel →
      m.1 = src ∧ m.2.2 = none ∧ in_bounds m.2.1.1 m.2.1.2 = true ∧
        occupied_by g m.2.1.1 m.2.1.2 color = false ∧
        ∃ i : Nat, m.2.1 = (nr + (i : Int) * dr, nc + (i : Int) * dc) := by
  intro fuel
  induction fuel with
  | zero =>
    intro nr nc m h
    exact absurd h (List.not_mem_nil m)
  | succ n ih =>
    intro nr nc m h
    unfold ray_moves at h
    split at h
    case isTrue => exact absurd h (List.not_mem_nil m)
    case isFalse hb =>
      split at h
      case isTrue => exact absurd h (List.not_mem_nil m)
      case isFalse ho =>
        split at h
        case isTrue hs =>
          obtain rfl := List.mem_singleton.mp h
          exact ⟨rfl, rfl, by simpa using hb, by simpa using ho, 0, by simp⟩
        case isFalse hs =>
          rcases List.mem_cons.mp h with rfl | htail
          · exact ⟨rfl, rfl, by simpa using hb, by simpa using ho, 0, by simp⟩
          · obtain ⟨h1, h2, h3, h4, i, h5⟩ := ih (nr + dr) (nc + dc) m htail
            refine ⟨h1, h2, h3, h4, i + 1, ?_⟩
            rw [h5]
            refine Prod.ext ?_ ?_ <;> (push_cast; ring)

lemma pawn_dir_cases (color : Color) :
    (color = .w ∧ pawn_dir color = -1 ∧ pawn_start_row color = 6) ∨
    (color = .b ∧ pawn_dir color = 1 ∧ pawn_start_row color = 1) := by
  cases color <;> simp [pawn_dir, pawn_start_row]

lemma mem_pawn_capture_at {g : Grid} {r c : Int} {color : Color} {dc : Int} {m : Move}
    (h : m ∈ pawn_capture_at g r c color dc) :
    m.1 = (r, c) ∧ m.2.1 = (r + pawn_dir color, c + dc) ∧
      in_bounds (r + pawn_dir color) (c + dc) = true ∧
      occupied_by g (r + pawn_dir color) (c + dc) color = false ∧
      m.2.2 = (if m.2.1.1 = 0 ∨ m.2.1.1 = 7 then some PieceType.Q else none) := by
  unfold pawn_capture_at at h
  dsimp only at h
  split at h
  case isFalse => exact absurd h (List.not_mem_nil m)
  case isTrue hguard =>
    simp only [Bool.and_eq_true, Bool.not_eq_true'] at hguard
    obtain ⟨⟨hbnd, _⟩, hocc⟩ := hguard
    split at h
    case isTrue hrank =>
      obtain rfl := List.mem_singleton.mp h
      simp only [Bool.or_eq_true, decide_eq_true_eq] at hrank
      exact ⟨rfl, rfl, hbnd, hocc, by rw [if_pos hrank]⟩
    case isFalse hrank =>
      obtain rfl := List.mem_singleton.mp h
      simp only [Bool.or_eq_true, decide_eq_true_eq] at hrank
      exact ⟨rfl, rfl, hbnd, hocc, by rw [if_neg hrank]⟩

lemma mem_pawn_moves {g : Grid} {r c : Int} {color : Color} {m : Move}
    (h : m ∈ pawn_moves g r c color) :
    m.1 = (r, c) ∧ in_bounds m.2.1.1 m.2.1.2 = true ∧
      occupied_by g m.2.1.1 m.2.1.2 color = false ∧ m.2.1.1 ≠ r ∧
      m.2.2 = (if m.2.1.1 = 0 ∨ m.2.1.1 = 7 then some PieceType.Q else none) := by
  have hdc := pawn_dir_cases color
  have hdir : pawn_dir color = -1 ∨ pawn_dir color = 1 := by
    rcases hdc with ⟨_, h1, _⟩ | ⟨_, h1, _⟩
    · exact Or.inl h1
    · exact Or.inr h1
  unfold pawn_moves at h
  dsimp only at h
  rcases List.mem_append.mp h with hf | hc
  · split at hf
    case isFalse => exact absurd hf (List.not_mem_nil m)
    case isTrue hguard =>
      simp only [Bool.and_eq_true] at hguard
      obtain ⟨hbnd, hemp⟩ := hguard
      rcases List.mem_append.mp hf with h1 | h2
      · split at h1
        case isTrue hrank =>
          obtain rfl := List.mem_singleton.mp h1
          simp only [Bool.or_eq_true, decide_eq_true_eq] at hrank
          refine ⟨rfl, hbnd, occupied_by_of_empty g _ _ color hemp, ?_, ?_⟩
          · show r + pawn_dir color ≠ r
            rcases hdir with h3 | h3 <;> omega
          · show _ = (if r + pawn_dir color = 0 ∨ r + pawn_dir color = 7 then _ else _)
            rw [if_pos hrank]
        case isFalse hrank =>
          obtain rfl := List.mem_singleton.mp h1
          simp only [Bool.or_eq_true, decide_eq_true_eq] at hrank
          refine ⟨rfl, hbnd, occupied_by_of_empty g _ _ color hemp, ?_, ?_⟩
          · show r + pawn_dir color ≠ r
            rcases hdir with h3 | h3 <;> omega
          · show _ = (if r + pawn_dir color = 0 ∨ r + pawn_dir color = 7 then _ else _)
            rw [if_neg hrank]
      · split at h2
        case isFalse => exact absurd h2 (List.not_mem_nil m)
        case isTrue hts =>
          simp only [Bool.and_eq_true, decide_eq_true_eq] at hts
          obtain ⟨hrow, hemp2⟩ := hts
          obtain rfl := List.mem_singleton.mp h2
          refine ⟨rfl, ?_, occupied_by_of_empty g _ _ color hemp2, ?_, ?_⟩
          · show in_bounds (r + 2 * pawn_dir color) c = true
            unfold in_bounds at hbnd ⊢
            simp only [Bool.and_eq_true, decide_eq_true_eq] at hbnd ⊢
            rcases hdc with ⟨_, hd, hs⟩ | ⟨_, hd, hs⟩ <;> rw [hs] at hrow <;>
              rw [hd] at hbnd ⊢ <;> omega
          · show r + 2 * pawn_dir color ≠ r
            rcases hdir with h3 | h3 <;> omega
          · show _ = (if r + 2 * pawn_dir color = 0 ∨ r + 2 * pawn_dir color = 7 then _ else _)
            rw [if_neg ?_]
            rcases hdc with ⟨_, hd, hs⟩ | ⟨_, hd, hs⟩ <;> rw [hs] at hrow <;>
              rw [hd] <;> omega
  · obtain ⟨d, _, hm⟩ := List.mem_flatMap.mp hc
    obtain ⟨hm1, hm2, hbnd, hocc, hpr⟩ := mem_pawn_capture_at hm
    refine ⟨hm1, ?_, ?_, ?_, hpr⟩
    · rw [hm2]
      exact hbnd
    · rw [hm2]
      exact hocc
    · rw [hm2]
      show r + pawn_dir color ≠ r
      rcases hdir with h3 | h3 <;> omega

lemma slide_dir_ne_zero {kind : PieceType} {d : Int × Int}
    (h : d ∈ slide_directions kind) : ¬(d.1 = 0 ∧ d.2 = 0) := by
  unfold slide_directions at h
  rcases List.mem_append.mp h with h | h <;>
  · split at h
    · fin_cases h <;> decide
    · exact absurd h (List.not_mem_nil d)

lemma knight_offset_ne_zero : ∀ d ∈ knight_offsets, ¬(d.1 = 0 ∧ d.2 = 0) := by
  decide

lemma king_offset_ne_zero : ∀ d ∈ king_offsets, ¬(d.1 = 0 ∧ d.2 = 0) := by
  decide

/-- Every generated pseudo move starts at the given square, targets an
in-bounds square that holds no friendly piece and differs from the
source square, and carries a promotion only as the Queen promotion of a
pawn. -/
lemma mem_pseudo_shape {g : Grid} {sq : Square} {p : Piece} {m : Move}
    (h : m ∈ generate_pseudo_moves_from g sq p) :
    m.1 = sq ∧ in_bounds m.2.1.1 m.2.1.2 = true ∧
      occupied_by g m.2.1.1 m.2.1.2 p.color = false ∧ m.2.1 ≠ sq ∧
      (m.2.2 = none ∨ (m.2.2 = some PieceType.Q ∧ p.kind = PieceType.P)) := by
  obtain ⟨r, c⟩ := sq
  obtain ⟨pc, pk⟩ := p
  cases pk
  case P =>
    obtain ⟨h1, h2, h3, h4, h5⟩ := mem_pawn_moves h
    refine ⟨h1, h2, h3, ?_, ?_⟩
    · intro heq
      rw [heq] at h4
      exact h4 rfl
    · rw [h5]
      split
      · exact Or.inr ⟨rfl, rfl⟩
      · exact Or.inl rfl
  case N =>
    obtain ⟨d, hd, rfl, hb, ho⟩ := mem_step_moves h
    refine ⟨rfl, hb, ho, ?_, Or.inl rfl⟩
    intro heq
    injection heq with heq1 heq2
    exact knight_offset_ne_zero d hd ⟨by omega, by omega⟩
  case K =>
    obtain ⟨d, hd, rfl, hb, ho⟩ := mem_step_moves h
    refine ⟨rfl, hb, ho, ?_, Or.inl rfl⟩
    intro heq
    injection heq with heq1 heq2
    exact king_offset_ne_zero d hd ⟨by omega, by omega⟩
  case B =>
    obtain ⟨d, hd, hm⟩ := List.mem_flatMap.mp h
    obtain ⟨h1, h2, h3, h4, i, h5⟩ := mem_ray_moves 8 _ _ m hm
    refine ⟨h1, h3, h4, ?_, Or.inl h2⟩
    intro heq
    rw [heq] at h5
    injection h5 with h6 h7
    have h8 : (1 + (i : Int)) * d.1 = 0 := by linear_combination -h6
    have h9 : (1 + (i : Int)) * d.2 = 0 := by linear_combination -h7
    rcases mul_eq_zero.mp h8 with h10 | h10
    · omega
    rcases mul_eq_zero.mp h9 with h11 | h11
    · omega
    exact slide_dir_ne_zero hd ⟨h10, h11⟩
  case R =>
    obtain ⟨d, hd, hm⟩ := List.mem_flatMap.mp h
    obtain ⟨h1, h2, h3, h4, i, h5⟩ := mem_ray_moves 8 _ _ m hm
    refine ⟨h1, h3, h4, ?_, Or.inl h2⟩
    intro heq
    rw [heq] at h5
    injection h5 with h6 h7
    have h8 : (1 + (i : Int)) * d.1 = 0 := by linear_combination -h6
    have h9 : (1 + (i : Int)) * d.2 = 0 := by linear_combination -h7
    rcases mul_eq_zero.mp h8 with h10 | h10
    · omega
    rcases mul_eq_zero.mp h9 with h11 | h11
    · omega
    exact slide_dir_ne_zero hd ⟨h10, h11⟩
  case Q =>
    obtain ⟨d, hd, hm⟩ := List.mem_flatMap.mp h
    obtain ⟨h1, h2, h3, h4, i, h5⟩ := mem_ray_moves 8 _ _ m hm
    refine ⟨h1, h3, h4, ?_, Or.inl h2⟩
    intro heq
    rw [heq] at h5
    injection h5 with h6 h7
    have h8 : (1 + (i : Int)) * d.1 = 0 := by linear_combination -h6
    have h9 : (1 + (i : Int)) * d.2 = 0 := by linear_combination -h7
    rcases mul_eq_zero.mp h8 with h10 | h10
    · omega
    rcases mul_eq_zero.mp h9 with h11 | h11
    · omega
    exact slide_dir_ne_zero hd ⟨h10, h11⟩

/- ------------------------------------------------------------------
Legal moves, attack detection and king bookkeeping.
------------------------------------------------------------------ -/

/-- Decomposing membership in the legal move list: the move is a legal
pseudo move of some piece of the color found on the scanned grid. -/
lemma mem_generate_legal_moves {g : Grid} {color : Color} {m : Move}
    (h : m ∈ generate_legal_moves g color) :
    ∃ sq p, sq ∈ squaresList ∧ g sq = some p ∧ p.color = color ∧
      m ∈ generate_pseudo_moves_from g sq p ∧ is_legal_move g m color = true := by
  unfold generate_legal_moves at h
  obtain ⟨sq, hsq, hm⟩ := List.mem_flatMap.mp h
  unfold legal_from at hm
  rcases hg : g sq with _ | p
  · rw [hg] at hm
    exact absurd hm (List.not_mem_nil m)
  · rw [hg] at hm
    change m ∈ (if p.color = color then
      (generate_pseudo_moves_from g sq p).filter (fun mv => is_legal_move g mv color)
      else []) at hm
    split at hm
    case isTrue hcol =>
      obtain ⟨hmem, hleg⟩ := List.mem_filter.mp hm
      exact ⟨sq, p, hsq, hg, hcol, hmem, hleg⟩
    case isFalse => exact absurd hm (List.not_mem_nil m)

/-- A pseudo move of a piece of the attacker color targeting a square
witnesses that the square is attacked. -/
lemma attacked_of_pseudo {g : Grid} {t : Square} {att : Color} {src : Square} {p : Piece}
    {m : Move} (hsrc : src ∈ squaresList) (hg : g src = some p) (hc : p.color = att)
    (hm : m ∈ generate_pseudo_moves_from g src p) (ht : m.2.1 = t) :
    is_square_attacked_by g t att = true := by
  have h1 : (generate_pseudo_moves_from g src p).any (fun mv => decide (mv.2.1 = t)) = true :=
    List.any_eq_true.mpr ⟨m, hm, decide_eq_true ht⟩
  unfold is_square_attacked_by
  refine List.any_eq_true.mpr ⟨src, hsrc, ?_⟩
  unfold attacks_from
  rw [hg]
  show (decide (p.color = att) &&
    (generate_pseudo_moves_from g src p).any (fun mv => decide (mv.2.1 = t))) = true
  rw [h1, decide_eq_true hc]
  rfl

/-- With exactly one king of a color on the board, king_position finds
it and it is the only king square. -/
lemma unique_king {g : Grid} {col : Color} (h : countKings g col = 1) :
    ∃ ksq, king_position g col = some ksq ∧ ksq ∈ squaresList ∧
      is_king_square g col ksq = true ∧
      (∀ sq ∈ squaresList, is_king_square g col sq = true → sq = ksq) := by
  unfold countKings at h
  rw [List.countP_eq_length_filter] at h
  obtain ⟨ksq, hfil⟩ := List.length_eq_one.mp h
  have hk1 : ksq ∈ squaresList.filter (is_king_square g col) := by
    rw [hfil]
    exact List.mem_singleton.mpr rfl
  obtain ⟨hkmem, hkp⟩ := List.mem_filter.mp hk1
  have hfind : (squaresList.find? (is_king_square g col)).isSome = true := by
    rw [List.find?_isSome]
    exact ⟨ksq, hkmem, hkp⟩
  obtain ⟨x, hx⟩ := Option.isSome_iff_exists.mp hfind
  have hxp : is_king_square g col x = true := List.find?_some hx
  have hxmem : x ∈ squaresList := List.mem_of_find?_eq_some hx
  have hxf : x ∈ squaresList.filter (is_king_square g col) :=
    List.mem_filter.mpr ⟨hxmem, hxp⟩
  rw [hfil] at hxf
  obtain rfl := List.mem_singleton.mp hxf
  refine ⟨x, hx, hkmem, hkp, ?_⟩
  intro sq hsq hking
  have : sq ∈ squaresList.filter (is_king_square g col) := List.mem_filter.mpr ⟨hsq, hking⟩
  rw [hfil] at this
  exact List.mem_singleton.mp this

/-- countP after changing a predicate at one point of a list without
duplicates: counts balance with the indicator of the point. -/
lemma countP_update_point {α : Type} (l : List α) (p q : α → Bool) (a : α)
    (hnd : l.Nodup) (ha : a ∈ l) (hpq : ∀ x ∈ l, x ≠ a → p x = q x) :
    l.countP p + (if q a = true then 1 else 0) =
      l.countP q + (if p a = true then 1 else 0) := by
  induction l with
  | nil => exact absurd ha (List.not_mem_nil a)
  | cons hd tl ih =>
    obtain ⟨hhd, htl⟩ := List.nodup_cons.mp hnd
    rcases List.mem_cons.mp ha with rfl | hatl
    · have hsame : tl.countP p = tl.countP q := by
        apply List.countP_congr
        intro x hx
        have hne : x ≠ a := by
          intro heq
          rw [heq] at hx
          exact hhd hx
        rw [hpq x (List.mem_cons_of_mem a hx) hne]
      rw [List.countP_cons, List.countP_cons, hsame]
      cases hp : p a <;> cases hq : q a <;> simp [hp, hq]
    · have hne : hd ≠ a := by
        intro heq
        rw [heq] at hhd
        exact hhd hatl
      have hpq2 : ∀ x ∈ tl, x ≠ a → p x = q x := by
        intro x hx hxne
        exact hpq x (List.mem_cons_of_mem hd hx) hxne
      have := ih htl hatl hpq2
      rw [List.countP_cons, List.countP_cons, hpq hd (List.mem_cons_self hd tl) hne]
      omega

lemma mem_squaresList_iff' (sq : Square) : sq ∈ squaresList ↔ in_bounds sq.1 sq.2 = true := by
  obtain ⟨r, c⟩ := sq
  exact mem_squaresList_iff r c

lemma not_king_of_not_occupied {g : Grid} {sq : Square} {col : Color}
    (h : occupied_by g sq.1 sq.2 col = false) : is_king_piece (g sq) col = false := by
  obtain ⟨r, c⟩ := sq
  unfold occupied_by at h
  rcases hg : g (r, c) with _ | p
  · rfl
  · rw [hg] at h
    change decide (p.color = col) = false at h
    rw [decide_eq_false_iff_not] at h
    show decide (p.color = col ∧ p.kind = PieceType.K) = false
    simp [h]

lemma king_piece_eq {o : Option Piece} {col : Color} (h : is_king_piece o col = true) :
    o = some ⟨col, .K⟩ := by
  rcases o with _ | p
  · exact absurd h (by simp [is_king_piece])
  · change decide (p.color = col ∧ p.kind = PieceType.K) = true at h
    rw [decide_eq_true_eq] at h
    obtain ⟨h1, h2⟩ := h
    rw [← h1, ← h2]

lemma color_cases (x y : Color) : x = y ∨ x = opposite y := by
  cases x <;> cases y <;> simp [opposite]

/-- Applying a move whose target holds no king and whose written piece
is a king exactly when the moved piece is preserves the king count. -/
lemma countKings_applied {g : Grid} {m : Move} {p : Piece} (col : Color)
    (hfrom_mem : m.1 ∈ squaresList) (hto_mem : m.2.1 ∈ squaresList)
    (hne : m.1 ≠ m.2.1) (hg : g m.1 = some p)
    (hking_to : is_king_piece (g m.2.1) col = false)
    (hv : is_king_piece (applied_target g m) col = is_king_piece (some p) col) :
    countKings (applied_grid g m) col = countKings g col := by
  have hpq1 : ∀ x ∈ squaresList, x ≠ m.2.1 →
      is_king_square (gupdate g m.2.1 (applied_target g m)) col x = is_king_square g col x := by
    intro x hx hxne
    unfold is_king_square
    rw [gupdate_ne g m.2.1 x _ hxne]
  have e1 := countP_update_point squaresList _ _ m.2.1 squaresList_nodup hto_mem hpq1
  have hpq2 : ∀ x ∈ squaresList, x ≠ m.1 →
      is_king_square (gupdate (gupdate g m.2.1 (applied_target g m)) m.1 none) col x =
        is_king_square (gupdate g m.2.1 (applied_target g m)) col x := by
    intro x hx hxne
    unfold is_king_square
    rw [gupdate_ne _ m.1 x _ hxne]
  have e2 := countP_update_point squaresList _ _ m.1 squaresList_nodup hfrom_mem hpq2
  have v1 : is_king_square g col m.2.1 = false := hking_to
  have v2 : is_king_square (gupdate g m.2.1 (applied_target g m)) col m.2.1 =
      is_king_piece (some p) col := by
    unfold is_king_square
    rw [gupdate_same, hv]
  have v3 : is_king_square (gupdate (gupdate g m.2.1 (applied_target g m)) m.1 none) col m.1 =
      false := by
    unfold is_king_square
    rw [gupdate_same]
    rfl
  have v4 : is_king_square (gupdate g m.2.1 (applied_target g m)) col m.1 =
      is_king_piece (some p) col := by
    unfold is_king_square
    rw [gupdate_ne _ _ _ _ hne, hg]
  rw [v1] at e1
  rw [v2] at e1
  rw [v3] at e2
  rw [v4] at e2
  unfold countKings
  unfold applied_grid
  cases hk : is_king_piece (some p) col <;> rw [hk] at e1 e2 <;> simp at e1 e2 <;> omega

lemma engineInv_initial : EngineInv initialBoard := by
  constructor
  · intro col
    cases col <;> decide
  · decide

lemma engineInv_step {bd : Board} {m : Move} (hInv : EngineInv bd)
    (hm : m ∈ generate_legal_moves bd.grid bd.turn) : EngineInv (make_move bd m) := by
  obtain ⟨hcount, hsafe⟩ := hInv
  obtain ⟨src, p, hsrc, hg, hpc, hpse, hleg⟩ := mem_generate_legal_moves hm
  obtain ⟨hfrom, hbnd, hnocc, hneq, hpromo⟩ := mem_pseudo_shape hpse
  have hfrom_mem : m.1 ∈ squaresList := by
    rw [hfrom]
    exact hsrc
  have hto_mem : m.2.1 ∈ squaresList := by
    rw [mem_squaresList_iff']
    exact hbnd
  have hne : m.1 ≠ m.2.1 := by
    rw [hfrom]
    intro heq
    exact hneq heq.symm
  have hgm : bd.grid m.1 = some p := by
    rw [hfrom]
    exact hg
  have hking_to : ∀ col, is_king_piece (bd.grid m.2.1) col = false := by
    intro col
    rcases color_cases col bd.turn with rfl | rfl
    · apply not_king_of_not_occupied
      rw [hpc] at hnocc
      exact hnocc
    · by_contra hk
      rw [Bool.not_eq_false] at hk
      have hgto : bd.grid m.2.1 = some ⟨opposite bd.turn, .K⟩ := king_piece_eq hk
      obtain ⟨ksq, hkp, hkmem, hkk, huniq⟩ := unique_king (hcount (opposite bd.turn))
      have hto_king : is_king_square bd.grid (opposite bd.turn) m.2.1 = true := by
        unfold is_king_square
        rw [hgto]
        exact decide_eq_true ⟨rfl, rfl⟩
      have hto_eq : m.2.1 = ksq := huniq m.2.1 hto_mem hto_king
      have hatt : is_square_attacked_by bd.grid ksq bd.turn = true :=
        attacked_of_pseudo hsrc hg hpc hpse hto_eq
      unfold in_check_grid at hsafe
      rw [hkp] at hsafe
      change is_square_attacked_by bd.grid ksq (opposite (opposite bd.turn)) = false at hsafe
      rw [opposite_opposite] at hsafe
      rw [hatt] at hsafe
      exact Bool.true_eq_false.mp hsafe
  have hv : ∀ col, is_king_piece (applied_target bd.grid m) col = is_king_piece (some p) col := by
    intro col
    rcases hpromo with hnone | ⟨hq, hP⟩
    · have : applied_target bd.grid m = some p := by
        unfold applied_target
        rw [hnone]
        exact hgm
      rw [this]
    · have : applied_target bd.grid m = some ⟨p.color, .Q⟩ := by
        unfold applied_target
        rw [hq]
        show (bd.grid m.1).map (fun x => Piece.mk x.color PieceType.Q) = some ⟨p.color, .Q⟩
        rw [hgm]
        rfl
      rw [this]
      show decide (p.color = col ∧ PieceType.Q = PieceType.K) =
        decide (p.color = col ∧ p.kind = PieceType.K)
      rw [hP]
      simp
  constructor
  · intro col
    rw [make_move_grid]
    rw [countKings_applied col hfrom_mem hto_mem hne hgm (hking_to col) (hv col)]
    exact hcount col
  · rw [make_move_grid, make_move_turn, opposite_opposite]
    exact (is_legal_move_iff bd.grid m bd.turn).mp hleg

/-- Every reachable board carries the engine invariant. -/
lemma reachable_inv {bd : Board} (h : Reachable bd) : EngineInv bd := by
  induction h with
  | init => exact engineInv_initial
  | step bd m hr hgo hmem ih => exact engineInv_step ih hmem

/-- update_game_state keeps winner set exactly for checkmate, starting
from a live board with no winner. -/
lemma update_game_state_winner_iff (x : Board) (hgo : x.game_over = none)
    (hw : x.winner = none) :
    ((update_game_state x).winner ≠ none ↔
      (update_game_state x).game_over = some "checkmate") := by
  unfold update_game_state
  split
  case isTrue hs =>
    rw [hgo] at hs
    simp at hs
  case isFalse =>
    split
    case isTrue =>
      split
      case isTrue => simp
      case isFalse =>
        constructor
        · intro h2
          exact absurd rfl h2
        · intro h2
          injection h2 with h3
          exact absurd h3 (by decide)
    case isFalse =>
      rw [hgo, hw]
      simp

/- ------------------------------------------------------------------
The claims.
------------------------------------------------------------------ -/

/-- C1: for every board, side and move of the generated legal move
list, performing make_move never leaves the mover in check: the
legality filter is exactly the post-move check test, and make_move
applies the move to the grid the same way the filter did. -/
theorem C1_no_self_check (bd : Board) (s : Color) (m : Move)
    (h : m ∈ generate_legal_moves bd.grid s) :
    (make_move bd m).in_check s = false := by
  obtain ⟨src, p, hsrc, hg, hpc, hpse, hleg⟩ := mem_generate_legal_moves h
  unfold Board.in_check
  rw [make_move_grid]
  exact (is_legal_move_iff bd.grid m s).mp hleg

/-- Witness for C1 on the two-kings fixture: the king step from (7,0)
to (6,0) is generated as legal and leaves White out of check. -/
theorem C1_no_self_check_witness :
    (((7 : Int), (0 : Int)), ((6 : Int), (0 : Int)), (none : Option PieceType)) ∈
        generate_legal_moves two_kings_board.grid .w ∧
      (make_move two_kings_board
        (((7 : Int), (0 : Int)), ((6 : Int), (0 : Int)), none)).in_check .w = false :=
  ⟨by decide, C1_no_self_check two_kings_board .w _ (by decide)⟩

/-- C2: for a pseudo move of a piece of the given side, the legality
test returns true exactly when the side is not in check in the position
reached by the speculative apply (promotion piece placed, from-square
cleared). -/
theorem C2_legal_iff_no_check (bd : Board) (s : Color) (sq : Square) (p : Piece) (m : Move)
    (_h1 : bd.grid sq = some p) (_h2 : p.color = s)
    (_h3 : m ∈ generate_pseudo_moves_from bd.grid sq p) :
    ((is_legal_move_state bd m s).1 = true ↔
      in_check_grid (applied_grid bd.grid m) s = false) :=
  is_legal_move_iff bd.grid m s

/-- Witness for C2 on the two-kings fixture with the king step from
(7,0) to (6,0). -/
theorem C2_legal_iff_no_check_witness :
    two_kings_board.grid ((7 : Int), (0 : Int)) = some ⟨.w, .K⟩ ∧
      (⟨.w, .K⟩ : Piece).color = .w ∧
      (((7 : Int), (0 : Int)), ((6 : Int), (0 : Int)), (none : Option PieceType)) ∈
        generate_pseudo_moves_from two_kings_board.grid ((7 : Int), (0 : Int)) ⟨.w, .K⟩ ∧
      ((is_legal_move_state two_kings_board
            (((7 : Int), (0 : Int)), ((6 : Int), (0 : Int)), none) .w).1 = true ↔
        in_check_grid (applied_grid two_kings_board.grid
            (((7 : Int), (0 : Int)), ((6 : Int), (0 : Int)), none)) .w = false) := by
  refine ⟨by decide, by decide, by decide, ?_⟩
  exact C2_legal_iff_no_check two_kings_board .w ((7 : Int), (0 : Int)) ⟨.w, .K⟩ _
    (by decide) (by decide) (by decide)

/-- C3: update_game_state on a board whose game is not over declares
checkmate (winner the other side) when the side to move is stuck and in
check, stalemate (no winner) when stuck and safe, and otherwise leaves
game_over unset and the winner unchanged. -/
theorem C3_update_game_state (bd : Board) (h : bd.game_over = none) :
    ((generate_legal_moves bd.grid bd.turn = [] ∧ in_check_grid bd.grid bd.turn = true) →
        (update_game_state bd).game_over = some "checkmate" ∧
          (update_game_state bd).winner = some (opposite bd.turn)) ∧
      ((generate_legal_moves bd.grid bd.turn = [] ∧ in_check_grid bd.grid bd.turn = false) →
        (update_game_state bd).game_over = some "stalemate" ∧
          (update_game_state bd).winner = none) ∧
      (generate_legal_moves bd.grid bd.turn ≠ [] →
        (update_game_state bd).game_over = none ∧
          (update_game_state bd).winner = bd.winner) := by
  refine ⟨?_, ?_, ?_⟩
  · rintro ⟨hleg, hchk⟩
    simp [update_game_state, h, hleg, hchk]
  · rintro ⟨hleg, hchk⟩
    simp [update_game_state, h, hleg, hchk]
  · intro hne
    have hlen : ¬((generate_legal_moves bd.grid bd.turn).length = 0) :=
      fun hl => hne (List.length_eq_zero.mp hl)
    simp [update_game_state, h, hlen]

/-- Witness for C3 on the two-kings fixture: White still has moves, so
the game stays open and the winner is untouched. -/
theorem C3_update_game_state_witness :
    two_kings_board.game_over = none ∧
      (update_game_state two_kings_board).game_over = none ∧
      (update_game_state two_kings_board).winner = two_kings_board.winner := by
  have h := C3_update_game_state two_kings_board rfl
  have hne : generate_legal_moves two_kings_board.grid two_kings_board.turn ≠ [] := by decide
  exact ⟨rfl, (h.2.2 hne).1, (h.2.2 hne).2⟩

/-- C4: on the freshly constructed starting board, White has exactly
the 20 opening moves, in the row-major generation order: one single and
one double step for each of the eight pawns on row 6, then the four
knight moves from (7,1) and (7,6). -/
theorem C4_start_moves :
    generate_legal_moves initialBoard.grid .w =
      [(((6 : Int), (0 : Int)), ((5 : Int), (0 : Int)), none),
       (((6 : Int), (0 : Int)), ((4 : Int), (0 : Int)), none),
       (((6 : Int), (1 : Int)), ((5 : Int), (1 : Int)), none),
       (((6 : Int), (1 : Int)), ((4 : Int), (1 : Int)), none),
       (((6 : Int), (2 : Int)), ((5 : Int), (2 : Int)), none),
       (((6 : Int), (2 : Int)), ((4 : Int), (2 : Int)), none),
       (((6 : Int), (3 : Int)), ((5 : Int), (3 : Int)), none),
       (((6 : Int), (3 : Int)), ((4 : Int), (3 : Int)), none),
       (((6 : Int), (4 : Int)), ((5 : Int), (4 : Int)), none),
       (((6 : Int), (4 : Int)), ((4 : Int), (4 : Int)), none),
       (((6 : Int), (5 : Int)), ((5 : Int), (5 : Int)), none),
       (((6 : Int), (5 : Int)), ((4 : Int), (5 : Int)), none),
       (((6 : Int), (6 : Int)), ((5 : Int), (6 : Int)), none),
       (((6 : Int), (6 : Int)), ((4 : Int), (6 : Int)), none),
       (((6 : Int), (7 : Int)), ((5 : Int), (7 : Int)), none),
       (((6 : Int), (7 : Int)), ((4 : Int), (7 : Int)), none),
       (((7 : Int), (1 : Int)), ((5 : Int), (0 : Int)), none),
       (((7 : Int), (1 : Int)), ((5 : Int), (2 : Int)), none),
       (((7 : Int), (6 : Int)), ((5 : Int), (5 : Int)), none),
       (((7 : Int), (6 : Int)), ((5 : Int), (7 : Int)), none)] ∧
      (generate_legal_moves initialBoard.grid .w).length = 20 := by
  constructor
  · decide
  · decide

/-- C5: every board reachable by legal play from the start has exactly
one king of each color on its grid. -/
theorem C5_one_king_each (bd : Board) (h : Reachable bd) :
    countKings bd.grid .w = 1 ∧ countKings bd.grid .b = 1 :=
  ⟨(reachable_inv h).1 .w, (reachable_inv h).1 .b⟩

/-- Witness for C5 at the starting board. -/
theorem C5_one_king_each_witness :
    countKings initialBoard.grid .w = 1 ∧ countKings initialBoard.grid .b = 1 :=
  C5_one_king_each initialBoard Reachable.init

/-- C6: the apply-then-undo legality test hands the caller back exactly
the board it started from: every square is restored and the scalar
fields were never touched. -/
theorem C6_legality_restores_board (bd : Board) (m : Move) (s : Color)
    (_h1 : (bd.grid m.1).isSome = true) (_h2 : m.1 ≠ m.2.1) :
    (∀ sq, (is_legal_move_state bd m s).2.grid sq = bd.grid sq) ∧
      (is_legal_move_state bd m s).2.turn = bd.turn ∧
      (is_legal_move_state bd m s).2.fullmove_number = bd.fullmove_number ∧
      (is_legal_move_state bd m s).2.game_over = bd.game_over ∧
      (is_legal_move_state bd m s).2.winner = bd.winner := by
  refine ⟨?_, rfl, rfl, rfl, rfl⟩
  intro sq
  show gupdate (gupdate (applied_grid bd.grid m) m.1 (bd.grid m.1)) m.2.1 (bd.grid m.2.1) sq =
    bd.grid sq
  by_cases ht : sq = m.2.1
  · rw [ht, gupdate_same]
  · rw [gupdate_ne _ _ _ _ ht]
    by_cases hf : sq = m.1
    · rw [hf, gupdate_same]
    · rw [gupdate_ne _ _ _ _ hf]
      unfold applied_grid
      rw [gupdate_ne _ _ _ _ hf, gupdate_ne _ _ _ _ ht]

/-- Witness for C6 on the two-kings fixture with the king step from
(7,0) to (6,0): the probed squares and the turn are restored. -/
theorem C6_legality_restores_board_witness :
    (two_kings_board.grid ((7 : Int), (0 : Int))).isSome = true ∧
      (is_legal_move_state two_kings_board
          (((7 : Int), (0 : Int)), ((6 : Int), (0 : Int)), none) .w).2.grid
          ((6 : Int), (0 : Int)) = two_kings_board.grid ((6 : Int), (0 : Int)) ∧
      (is_legal_move_state two_kings_board
          (((7 : Int), (0 : Int)), ((6 : Int), (0 : Int)), none) .w).2.turn =
        two_kings_board.turn := by
  have h := C6_legality_restores_board two_kings_board
    (((7 : Int), (0 : Int)), ((6 : Int), (0 : Int)), none) .w (by decide) (by decide)
  exact ⟨by decide, h.1 ((6 : Int), (0 : Int)), h.2.1⟩

/-- C7: a pawn pseudo move carries the Queen promotion exactly when its
target lies on row 0 or row 7; concretely, the White pawn on e7 (row 1,
column 4) with e8 empty generates the move to (0,4) with promotion
Queen, and make_move puts a White Queen there. -/
theorem C7_pawn_promotion :
    (∀ (g : Grid) (sq : Square) (p : Piece) (m : Move), p.kind = .P →
        m ∈ generate_pseudo_moves_from g sq p →
        m.2.2 = (if m.2.1.1 = 0 ∨ m.2.1.1 = 7 then some PieceType.Q else none)) ∧
      (((1 : Int), (4 : Int)), ((0 : Int), (4 : Int)), some PieceType.Q) ∈
        generate_pseudo_moves_from promo_board.grid ((1 : Int), (4 : Int)) ⟨.w, .P⟩ ∧
      (make_move promo_board
          (((1 : Int), (4 : Int)), ((0 : Int), (4 : Int)), some PieceType.Q)).grid
          ((0 : Int), (4 : Int)) = some ⟨.w, .Q⟩ := by
  refine ⟨?_, by decide, ?_⟩
  · intro g sq p m hP hm
    obtain ⟨r, c⟩ := sq
    obtain ⟨pc, pk⟩ := p
    dsimp only at hP
    subst hP
    exact (mem_pawn_moves hm).2.2.2.2
  · rw [make_move_grid]
    decide

/-- Witness for C7: instantiating the universal part at the e7 pawn
move of the fixture. -/
theorem C7_pawn_promotion_witness :
    ((⟨.w, .P⟩ : Piece).kind = .P) ∧
      ((((1 : Int), (4 : Int)), ((0 : Int), (4 : Int)), some PieceType.Q) : Move).2.2 =
        (if ((((1 : Int), (4 : Int)), ((0 : Int), (4 : Int)),
            some PieceType.Q) : Move).2.1.1 = 0 ∨
            ((((1 : Int), (4 : Int)), ((0 : Int), (4 : Int)),
            some PieceType.Q) : Move).2.1.1 = 7 then some PieceType.Q else none) := by
  refine ⟨rfl, ?_⟩
  exact C7_pawn_promotion.1 promo_board.grid ((1 : Int), (4 : Int)) ⟨.w, .P⟩ _ rfl (by decide)

/-- C8: make_move flips the side to move for every board and move, and
bumps fullmove_number exactly when the mover was Black. -/
theorem C8_turn_alternation (bd : Board) (m : Move) :
    (make_move bd m).turn = opposite bd.turn ∧
      (make_move bd m).fullmove_number =
        (if bd.turn = .b then bd.fullmove_number + 1 else bd.fullmove_number) := by
  refine ⟨make_move_turn bd m, ?_⟩
  rw [make_move_fullmove]
  cases bd.turn <;> simp [opposite]

/-- C9: on the starting board and on every board reached by legal play,
the winner is set exactly when checkmate has been declared. -/
theorem C9_winner_iff_checkmate (bd : Board) (h : Reachable bd) :
    (bd.winner ≠ none ↔ bd.game_over = some "checkmate") := by
  induction h with
  | init =>
    constructor
    · intro h2
      exact absurd rfl h2
    · intro h2
      exact absurd h2 (by decide)
  | step bd m hr hgo hmem ih =>
    have hw : bd.winner = none := by
      by_contra hw
      have h2 := ih.mp hw
      rw [hgo] at h2
      exact absurd h2 (by simp)
    unfold make_move
    exact update_game_state_winner_iff _ hgo hw

/-- Witness for C9 at the starting board. -/
theorem C9_winner_iff_checkmate_witness :
    (initialBoard.winner ≠ none ↔ initialBoard.game_over = some "checkmate") :=
  C9_winner_iff_checkmate initialBoard Reachable.init

/-- C10: when no square of the board holds a king of the color, the
king scan returns none and in_check reports false instead of failing. -/
theorem C10_no_king_no_check (bd : Board) (s : Color)
    (h : ∀ sq ∈ squaresList, bd.grid sq ≠ some ⟨s, .K⟩) :
    king_position bd.grid s = none ∧ bd.in_check s = false := by
  have hkp : king_position bd.grid s = none := by
    unfold king_position
    rw [List.find?_eq_none]
    intro sq hsq hk
    exact h sq hsq (king_piece_eq hk)
  refine ⟨hkp, ?_⟩
  unfold Board.in_check in_check_grid
  rw [hkp]

/-- Witness for C10 on the empty board. -/
theorem C10_no_king_no_check_witness :
    (∀ sq ∈ squaresList, empty_board.grid sq ≠ some ⟨Color.w, PieceType.K⟩) ∧
      king_position empty_board.grid .w = none ∧ empty_board.in_check .w = false := by
  have h : ∀ sq ∈ squaresList, empty_board.grid sq ≠ some ⟨Color.w, PieceType.K⟩ := by
    decide
  have h2 := C10_no_king_no_check empty_board .w h
  exact ⟨h, h2.1, h2.2⟩
